import Mathlib

/-!
Verification of the FreqShow (WQ7Tpanadapter) signal-processing core.

Shallow embedding of `model.py` (FreqShowModel) and the spectral parts of
`views.py` (gradient functions and the InstantSpectrogram frame accumulator).
Real-valued quantities (sample rates, window coefficients, spectral
magnitudes) are modelled as rationals; floating-point special values that the
decibel conversion can produce (`-inf`, `nan`) are modelled explicitly by the
`DbVal` type.  External collaborators (the rtlsdr device, scipy's window
library, the FFT and the real logarithm) are parameters of the embedding,
constrained only by their documented contracts where a theorem needs them.
-/

namespace FreqShow

/-- Python `int()` applied to a real number: truncation toward zero. -/
def pyInt (q : ℚ) : ℤ :=
  if 0 ≤ q then ⌊q⌋ else ⌈q⌉

/-- Normalization of one (possibly negative) Python slice endpoint against a
sequence of length `n`: negative indices count from the end, and the result is
clamped into `[0, n]`. -/
def pyIdx (n : ℕ) (i : ℤ) : ℕ :=
  if i < 0 then (max 0 ((n : ℤ) + i)).toNat else min i.toNat n

/-- Python slice `a[i:j]` with integer (possibly negative) endpoints. -/
def pySlice {α : Type} (a : List α) (i j : ℤ) : List α :=
  (a.take (pyIdx a.length j)).drop (pyIdx a.length i)

/-- Python float modulo `a % b` (sign follows the divisor; exact for `b > 0`,
the only case the code exercises). -/
def pyMod (a b : ℚ) : ℚ :=
  a - b * ⌊a / b⌋

/-- Python list indexing `l[i]` with a possibly negative index (counting from
the end), returning `d` out of range. -/
def pyGet {α : Type} (l : List α) (i : ℤ) (d : α) : α :=
  if i < 0 then l.getD ((l.length : ℤ) + i).toNat d else l.getD i.toNat d

/-- Classification of an IEEE double produced by the dB conversion
`20.0*np.log10(...)` and propagated through the intensity statistics:
either a finite value, `-inf` (log of zero), `+inf` (can arise from the
`range` subtraction), or `nan` (log of a negative number). -/
inductive DbVal where
  | fin : ℚ → DbVal
  | negInf : DbVal
  | posInf : DbVal
  | nan : DbVal
deriving DecidableEq

/-- IEEE `<` on `DbVal`: any comparison with `nan` is false. -/
def dbLtB : DbVal → DbVal → Bool
  | .nan, _ => false
  | _, .nan => false
  | _, .negInf => false
  | .negInf, _ => true
  | .posInf, _ => false
  | _, .posInf => true
  | .fin a, .fin b => decide (a < b)

/-- IEEE `<=` on `DbVal`: any comparison with `nan` is false. -/
def dbLeB : DbVal → DbVal → Bool
  | .nan, _ => false
  | _, .nan => false
  | .negInf, _ => true
  | _, .negInf => false
  | _, .posInf => true
  | .posInf, _ => false
  | .fin a, .fin b => decide (a ≤ b)

/-- `np.minimum` on two doubles: `nan` propagates, otherwise the smaller. -/
def dbMin (a b : DbVal) : DbVal :=
  if a = .nan ∨ b = .nan then .nan else if dbLtB a b then a else b

/-- `np.maximum` on two doubles: `nan` propagates, otherwise the larger. -/
def dbMax (a b : DbVal) : DbVal :=
  if a = .nan ∨ b = .nan then .nan else if dbLtB a b then b else a

/-- Python builtin `min(a, b)`: returns `b` when `b < a`, else `a`. -/
def pyMin (a b : DbVal) : DbVal :=
  if dbLtB b a then b else a

/-- Python builtin `max(a, b)`: returns `b` when `a < b`, else `a`. -/
def pyMax (a b : DbVal) : DbVal :=
  if dbLtB a b then b else a

/-- IEEE subtraction on `DbVal` (used for `range = max - min`). -/
def dbSub : DbVal → DbVal → DbVal
  | .nan, _ => .nan
  | _, .nan => .nan
  | .posInf, .posInf => .nan
  | .negInf, .negInf => .nan
  | .posInf, _ => .posInf
  | .negInf, _ => .negInf
  | _, .posInf => .negInf
  | _, .negInf => .posInf
  | .fin a, .fin b => .fin (a - b)

/-- IEEE addition on `DbVal` (used by the averaging reduction). -/
def dbAdd : DbVal → DbVal → DbVal
  | .nan, _ => .nan
  | _, .nan => .nan
  | .posInf, .negInf => .nan
  | .negInf, .posInf => .nan
  | .posInf, _ => .posInf
  | _, .posInf => .posInf
  | .negInf, _ => .negInf
  | _, .negInf => .negInf
  | .fin a, .fin b => .fin (a + b)

/-- Division of a `DbVal` by a positive frame count (averaging). -/
def dbDivNat (x : DbVal) (k : ℕ) : DbVal :=
  match x with
  | .fin a => .fin (a / (k : ℚ))
  | y => y

/-- True exactly on finite values. -/
def DbVal.isFin : DbVal → Bool
  | .fin _ => true
  | _ => false

/-- `np.min` over a 1-D array (`nan` on the empty array, which numpy
rejects; never reached under the theorems' hypotheses). -/
def np_min (l : List DbVal) : DbVal :=
  match l with
  | [] => .nan
  | x :: xs => xs.foldl dbMin x

/-- `np.max` over a 1-D array. -/
def np_max (l : List DbVal) : DbVal :=
  match l with
  | [] => .nan
  | x :: xs => xs.foldl dbMax x

/-- `20.0*np.log10(x)` (model.py line 359).  A positive magnitude gives a
finite double, written through the real-log oracle `lg`; zero gives `-inf`
and a negative argument gives `nan`. -/
def np_log10_db (lg : ℚ → ℚ) (x : ℚ) : DbVal :=
  if 0 < x then .fin (20 * lg x) else if x = 0 then .negInf else .nan

/-- `np.fft.fftshift` on a 1-D array: rotate left by `⌈n/2⌉`
(equivalently `np.roll(x, n//2)`). -/
def np_fftshift {α : Type} (l : List α) : List α :=
  l.rotate ((l.length + 1) / 2)

/-- `freqshow.SDR_SAMPLE_SIZE` (freqshow.py line 42). -/
def SDR_SAMPLE_SIZE : ℕ := 8192

/-- The scipy window generators used by `get_data` (model.py lines 303-320),
kept abstract: each takes the requested length (and for kaiser the beta
parameter) and yields the coefficient array. -/
structure SignalLib where
  kaiser : ℕ → ℚ → List ℚ
  boxcar : ℕ → List ℚ
  hann : ℕ → List ℚ
  hamming : ℕ → List ℚ
  blackman : ℕ → List ℚ
  blackmanharris : ℕ → List ℚ
  bartlett : ℕ → List ℚ
  barthann : ℕ → List ℚ
  nuttall : ℕ → List ℚ

/-- The documented scipy contract the embedding relies on: a window of
requested length `n` has exactly `n` coefficients. -/
def SignalLib.Lawful (lib : SignalLib) : Prop :=
  (∀ n b, (lib.kaiser n b).length = n) ∧
  (∀ n, (lib.boxcar n).length = n) ∧
  (∀ n, (lib.hann n).length = n) ∧
  (∀ n, (lib.hamming n).length = n) ∧
  (∀ n, (lib.blackman n).length = n) ∧
  (∀ n, (lib.blackmanharris n).length = n) ∧
  (∀ n, (lib.bartlett n).length = n) ∧
  (∀ n, (lib.barthann n).length = n) ∧
  (∀ n, (lib.nuttall n).length = n)

/-- The mutable state of `FreqShowModel` (model.py), restricted to the fields
the signal pipeline and the claims touch.  `sdr_sample_rate` is the device
sample rate in Hz (`self.sdr.sample_rate`); `zoom_fac`, `lo_offset`,
`center_freq` are in MHz as in the source.  `min_intensity`/`max_intensity`
are `None` or a stored double (`DbVal`). -/
structure ModelState where
  width : ℕ
  sdr_sample_rate : ℚ
  sdr_center_freq : ℚ
  sdr_gain : ℚ
  auto_gain : Bool
  model_sample_rate : Option ℚ
  center_freq : ℚ
  zoom_fac : ℚ
  lo_offset : ℚ
  swap_iq : Bool
  min_auto_scale : Bool
  max_auto_scale : Bool
  min_intensity : Option DbVal
  max_intensity : Option DbVal
  range : Option DbVal
  filter : String
  kaiser_beta : ℚ
  fft_ave : ℕ
  peak : Bool
deriving DecidableEq

/-- `FreqShowModel._clear_intensity` (model.py lines 68-73). -/
def _clear_intensity (s : ModelState) : ModelState :=
  { s with
    min_intensity := if s.min_auto_scale then none else s.min_intensity,
    max_intensity := if s.max_auto_scale then none else s.max_intensity,
    range := none }

/-- `FreqShowModel.set_zoom_fac` (model.py lines 239-240). -/
def set_zoom_fac (s : ModelState) (zoom_fac : ℚ) : ModelState :=
  { s with zoom_fac := zoom_fac }

/-- `FreqShowModel.set_sample_rate` (model.py lines 135-145): inside the two
accepted bands the device rate is set (the model assumes the I/O succeeds);
otherwise the source assigns `self.sample_rate = self.get_sample_rate()`
(a model attribute that nothing else reads). -/
def set_sample_rate (s : ModelState) (sample_rate_mhz : ℚ) : ModelState :=
  if (225001/1000000 ≤ sample_rate_mhz ∧ sample_rate_mhz ≤ 300000/1000000) ∨
     (900001/1000000 ≤ sample_rate_mhz ∧ sample_rate_mhz ≤ 3200000/1000000) then
    { s with sdr_sample_rate := sample_rate_mhz * 1000000 }
  else
    { s with model_sample_rate := some (s.sdr_sample_rate / 1000000) }

/-- `FreqShowModel.set_center_freq` (model.py lines 108-115). -/
def set_center_freq (s : ModelState) (value : ℚ) : ModelState :=
  let s1 := { s with center_freq := value }
  let freq_hz :=
    if ((s1.sdr_sample_rate / 1000000) / s1.zoom_fac) / 2 >
       ((s1.lo_offset / s1.zoom_fac) - (s1.zoom_fac / 2)) then
      (s1.center_freq + s1.lo_offset) * 1000000
    else
      s1.center_freq * 1000000
  _clear_intensity { s1 with sdr_center_freq := freq_hz }

/-- `FreqShowModel.set_gain` (model.py lines 156-172); `none` stands for the
string `'AUTO'`, `some v` for a numeric gain (I/O assumed to succeed). -/
def set_gain (s : ModelState) (gain_db : Option ℚ) : ModelState :=
  match gain_db with
  | none => _clear_intensity { s with auto_gain := true }
  | some v => _clear_intensity { s with sdr_gain := v, auto_gain := false }

/-- `FreqShowModel.set_min_intensity` (model.py lines 183-192); `none`
stands for `'AUTO'`. -/
def set_min_intensity (s : ModelState) (intensity : Option ℚ) : ModelState :=
  match intensity with
  | none => _clear_intensity { s with min_auto_scale := true }
  | some v =>
      _clear_intensity
        { s with min_auto_scale := false, min_intensity := some (.fin v) }

/-- `FreqShowModel.set_max_intensity` (model.py lines 203-214); `none`
stands for `'AUTO'`. -/
def set_max_intensity (s : ModelState) (intensity : Option ℚ) : ModelState :=
  match intensity with
  | none => _clear_intensity { s with max_auto_scale := true }
  | some v =>
      _clear_intensity
        { s with max_auto_scale := false, max_intensity := some (.fin v) }

/-- The zoom bin count and updated zoom factor computed at the top of
`get_data` (model.py lines 287-291): if `zoom_fac` is below the sample rate
(in MHz) the display is zoomed (`zoom = int(width * rate_mhz / zoom_fac)`),
otherwise `zoom = width` and `zoom_fac` is reset to the full sample rate. -/
def zoomRaw (s : ModelState) : ℤ × ℚ :=
  if s.zoom_fac < s.sdr_sample_rate / 1000000 then
    (pyInt ((s.width : ℚ) * ((s.sdr_sample_rate / 1000000) / s.zoom_fac)), s.zoom_fac)
  else
    ((s.width : ℤ), s.sdr_sample_rate / 1000000)

/-- The acquisition guard of `get_data` (model.py lines 293-298): when
`zoom < SDR_SAMPLE_SIZE` the zoom and zoom factor are kept, otherwise both
are clamped back (`zoom = width`, `zoom_fac = rate_mhz`) before the sample
slice is taken. -/
def zoomClamped (s : ModelState) (z : ℤ) (zf : ℚ) : ℤ × ℚ :=
  if z < (SDR_SAMPLE_SIZE : ℤ) then (z, zf)
  else ((s.width : ℤ), s.sdr_sample_rate / 1000000)

/-- `FreqShowModel.get_freq_step` (model.py lines 267-274), returning the
frequency step in Hz together with the (possibly reset) zoom factor. -/
def get_freq_step (s : ModelState) : ℚ × ℚ :=
  if s.zoom_fac < s.sdr_sample_rate / 1000000 then
    ((s.sdr_sample_rate /
        (((pyInt ((s.width : ℚ) * ((s.sdr_sample_rate / 1000000) / s.zoom_fac))) : ℚ) + 2)),
      s.zoom_fac)
  else
    (s.sdr_sample_rate / ((s.width : ℚ) + 2), s.sdr_sample_rate / 1000000)

/-- Window selection in `get_data` (model.py lines 303-322): each recognized
shape yields the scipy window of length `SDR_SAMPLE_SIZE` sliced by
`[0:zoom+2]` (`Sum.inl`), and any other string falls through to the bare
scalar `window = 1` (`Sum.inr`). -/
def windowOf (lib : SignalLib) (filter : String) (kaiser_beta : ℚ) (j : ℤ) :
    List ℚ ⊕ ℚ :=
  if filter = "kaiser" then .inl (pySlice (lib.kaiser SDR_SAMPLE_SIZE kaiser_beta) 0 j)
  else if filter = "boxcar" then .inl (pySlice (lib.boxcar SDR_SAMPLE_SIZE) 0 j)
  else if filter = "hann" then .inl (pySlice (lib.hann SDR_SAMPLE_SIZE) 0 j)
  else if filter = "hamming" then .inl (pySlice (lib.hamming SDR_SAMPLE_SIZE) 0 j)
  else if filter = "blackman" then .inl (pySlice (lib.blackman SDR_SAMPLE_SIZE) 0 j)
  else if filter = "blackmanharris" then
    .inl (pySlice (lib.blackmanharris SDR_SAMPLE_SIZE) 0 j)
  else if filter = "bartlett" then .inl (pySlice (lib.bartlett SDR_SAMPLE_SIZE) 0 j)
  else if filter = "barthann" then .inl (pySlice (lib.barthann SDR_SAMPLE_SIZE) 0 j)
  else if filter = "nuttall" then .inl (pySlice (lib.nuttall SDR_SAMPLE_SIZE) 0 j)
  else .inr 1

/-- The names the window dispatch recognizes. -/
def recognizedShapes : List String :=
  ["kaiser", "boxcar", "hann", "hamming", "blackman", "blackmanharris",
   "bartlett", "barthann", "nuttall"]

/-- The LO offset in pixels, `shiftsweep = int(lo_offset*1000000/freq_step)`
(model.py line 343). -/
def shiftsweepOf (s : ModelState) : ℤ :=
  pyInt (s.lo_offset * 1000000 / (get_freq_step s).1)

/-- `extra_samples = int((freqs.size - width)/2)` (model.py line 344;
Python 2 floor division of integers). -/
def extraSamples (s : ModelState) (n : ℕ) : ℤ :=
  Int.fdiv ((n : ℤ) - (s.width : ℤ)) 2

/-- The left crop offset `lextra` (model.py lines 346-353): shifted by the
LO offset only when there is room (`extra_samples > abs(shiftsweep)`), with
the sign depending on `swap_iq`. -/
def cropLextra (s : ModelState) (n : ℕ) : ℤ :=
  if |shiftsweepOf s| < extraSamples s n then
    if s.swap_iq then extraSamples s n + shiftsweepOf s
    else extraSamples s n - shiftsweepOf s
  else extraSamples s n

/-- The crop offsets of `get_data` (model.py lines 342-355) for a shifted
spectrum of size `n`: the left crop `lextra` and the right crop
`rextra = freqs.size - (lextra + width)` (line 355). -/
def cropOffsets (s : ModelState) (n : ℕ) : ℤ × ℤ :=
  (cropLextra s n, (n : ℤ) - (cropLextra s n + (s.width : ℤ)))

/-- The truncation step of `get_data` (model.py lines 340-356): when the
shifted spectrum is longer than the display width, slice
`freqs[lextra:-rextra]` (also committing `get_freq_step`'s zoom-factor
side effect); otherwise the spectrum passes through unchanged. -/
def cropStep (s : ModelState) (freqs : List ℚ) : List ℚ × ModelState :=
  if s.width < freqs.length then
    let lr := cropOffsets s freqs.length
    (pySlice freqs lr.1 (-lr.2), { s with zoom_fac := (get_freq_step s).2 })
  else (freqs, s)

/-- The auto-scale update at the end of `get_data` (model.py lines 367-377):
each auto-scaled bound folds the frame's `np.min`/`np.max` into the running
bound (direct assignment when the bound is `None`), and `range` is
recomputed as `max_intensity - min_intensity`. -/
def autoscale_update (s : ModelState) (freqs : List DbVal) : ModelState :=
  let newMin : DbVal :=
    match s.min_intensity with
    | none => np_min freqs
    | some old => pyMin (np_min freqs) old
  let s1 := if s.min_auto_scale then { s with min_intensity := some newMin } else s
  let newMax : DbVal :=
    match s1.max_intensity with
    | none => np_max freqs
    | some old => pyMax (np_max freqs) old
  let s2 := if s1.max_auto_scale then { s1 with max_intensity := some newMax } else s1
  let newRange : Option DbVal :=
    match s2.max_intensity, s2.min_intensity with
    | some b, some a => some (dbSub b a)
    | _, _ => none
  { s2 with range := newRange }

/-- `FreqShowModel.get_data` (model.py lines 277-380).  `lib` supplies the
scipy windows, `fftMag` is `np.absolute ∘ scipy.fftpack.fft` (a single
length-preserving array transform), `lg` is the real base-10 logarithm on
positive rationals, and `raw` is the array returned by
`self.sdr.read_samples(SDR_SAMPLE_SIZE)`.  Returns the dB frame together
with the mutated model state. -/
def get_data (lib : SignalLib) (fftMag : List ℚ → List ℚ) (lg : ℚ → ℚ)
    (raw : List ℚ) (s : ModelState) : List DbVal × ModelState :=
  -- zoom computation and acquisition guard (lines 287-298)
  let zc := zoomClamped s (zoomRaw s).1 (zoomRaw s).2
  let zoom := zc.1
  let s1 : ModelState := { s with zoom_fac := zc.2 }
  -- freqbins = read_samples(SDR_SAMPLE_SIZE)[0:zoom+2] (lines 294/298)
  let freqbins := pySlice raw 0 (zoom + 2)
  -- samples = freqbins * window (lines 303-324)
  let samples :=
    match windowOf lib s1.filter s1.kaiser_beta (zoom + 2) with
    | .inl w => List.zipWith (· * ·) freqbins w
    | .inr c => freqbins.map (· * c)
  -- freqs = np.absolute(fft(samples)) (line 327)
  let freqs0 := fftMag samples
  -- freqs = freqs[1:-1] (line 330)
  let freqs1 := pySlice freqs0 1 (-1)
  -- freqs = freqs[::-1] when swapping I and Q (lines 333-334)
  let freqs2 := if s1.swap_iq then freqs1.reverse else freqs1
  -- freqs = np.fft.fftshift(freqs) (line 337)
  let freqs3 := np_fftshift freqs2
  -- truncate to the display width if necessary (lines 340-356)
  let cr := cropStep s1 freqs3
  -- freqs = 20.0*np.log10(freqs) (line 359)
  let dbfreqs := cr.1.map (np_log10_db lg)
  -- auto-scale bookkeeping (lines 367-377)
  (dbfreqs, autoscale_update cr.2 dbfreqs)

/-- `views.lerp` (views.py lines 38-42). -/
def lerp (x x0 x1 y0 y1 : ℚ) : ℚ :=
  y0 + (y1 - y0) * ((x - x0) / (x1 - x0))

/-- `views.rgb_lerp` (views.py lines 44-48): linear interpolation of two RGB
tuples, each channel floored to an integer by `math.floor`. -/
def rgb_lerp (x x0 x1 : ℚ) (c0 c1 : ℤ × ℤ × ℤ) : ℤ × ℤ × ℤ :=
  (⌊lerp x x0 x1 (c0.1 : ℚ) (c1.1 : ℚ)⌋,
   ⌊lerp x x0 x1 (c0.2.1 : ℚ) (c1.2.1 : ℚ)⌋,
   ⌊lerp x x0 x1 (c0.2.2 : ℚ) (c1.2.2 : ℚ)⌋)

/-- The interpolation function built by `views.gradient_func`
(views.py lines 50-67), applied to `value`. -/
def gradient_func (colors : List (ℤ × ℤ × ℤ)) (value : ℚ) : ℤ × ℤ × ℤ :=
  let grad_width : ℚ := 1 / ((colors.length : ℚ) - 1)
  if value ≤ 0 then pyGet colors 0 (0, 0, 0)
  else if 1 ≤ value then pyGet colors (-1) (0, 0, 0)
  else
    let pos := pyInt (value / grad_width)
    let c0 := pyGet colors pos (0, 0, 0)
    let c1 := pyGet colors (pos + 1) (0, 0, 0)
    let x := pyMod value grad_width / grad_width
    rgb_lerp x 0 1 c0 c1

/-- `views.clamp` (views.py lines 69-78). -/
def clamp (x x0 x1 : ℚ) : ℚ :=
  if x > x1 then x1 else if x < x0 then x0 else x

/-- `freqshow.WATERFALL_GRAD` (freqshow.py line 74). -/
def WATERFALL_GRAD : List (ℤ × ℤ × ℤ) :=
  [(0, 0, 255), (0, 255, 255), (255, 255, 0), (255, 0, 0)]

/-- The frame-accumulation state of `views.InstantSpectrogram`
(views.py lines 826-831): the depth recorded at ring construction
(`checkfirst`), the frame the ring was built from (`freqsfirst`) and the
ring itself (`freqgrabs`, rows of one numpy 2-D array). -/
structure AccumState where
  checkfirst : ℕ
  freqsfirst : List DbVal
  freqgrabs : List (List DbVal)
deriving DecidableEq

/-- Ring construction (views.py lines 828-831 and 840-843):
`np.tile(first, (fft_ave+1, 1))` — every slot holds `first`. -/
def accumInit (fft_ave : ℕ) (first : List DbVal) : AccumState :=
  { checkfirst := fft_ave + 1,
    freqsfirst := first,
    freqgrabs := List.replicate (fft_ave + 1) first }

/-- One iteration of the shift loop (views.py line 848):
`np.copyto(freqgrabs[i-1], freqgrabs[i])`. -/
def shiftStep (rows : List (List DbVal)) (i : ℕ) : List (List DbVal) :=
  rows.set (i - 1) (rows.getD i [])

/-- The shift loop (views.py lines 847-848): `for i in range(1, fft_ave+1)`. -/
def shiftRows (rows : List (List DbVal)) (fft_ave : ℕ) : List (List DbVal) :=
  (List.range' 1 fft_ave).foldl shiftStep rows

/-- `np.copyto(dst, src)` on two 1-D rows: requires matching lengths (or a
broadcastable length-1 source); a mismatch raises, modelled as `none`. -/
def np_copyto (dst src : List DbVal) : Option (List DbVal) :=
  if src.length = dst.length then some src
  else if src.length = 1 then some (dst.map (fun _ => src.getD 0 .nan))
  else none

/-- `np.max(rows, axis=0)` (views.py line 853): per-bin maximum across the
rows of a 2-D array. -/
def np_max_axis0 (rows : List (List DbVal)) : List DbVal :=
  match rows with
  | [] => []
  | r :: rs => rs.foldl (fun acc row => List.zipWith dbMax acc row) r

/-- `np.average(rows, axis=0)` (views.py line 855): per-bin arithmetic mean
across the rows of a 2-D array. -/
def np_average_axis0 (rows : List (List DbVal)) : List DbVal :=
  match rows with
  | [] => []
  | r :: rs =>
      (rs.foldl (fun acc row => List.zipWith dbAdd acc row) r).map
        (fun x => dbDivNat x (rs.length + 1))

/-- The accumulation part of `InstantSpectrogram.render_spectrogram`
(views.py lines 834-855): `freqslast` is the frame just read
(`self.model.get_data()`, line 837) and `fresh` is the frame a
reinitialization would read (line 841).  On a length or depth mismatch the
ring is rebuilt from `fresh`; then the ring is shifted, `freqslast` is
copied into the last slot (`none` on a copy-shape error, where numpy
raises), and the rows are reduced by peak-hold or averaging. -/
def pushFrame (st : AccumState) (fft_ave : ℕ) (peak : Bool)
    (freqslast fresh : List DbVal) : Option (AccumState × List DbVal) :=
  let st1 :=
    if st.freqsfirst.length ≠ freqslast.length ∨ st.checkfirst ≠ fft_ave + 1 then
      accumInit fft_ave fresh
    else st
  let rows1 := shiftRows st1.freqgrabs fft_ave
  match np_copyto (rows1.getD fft_ave []) freqslast with
  | none => none
  | some newLast =>
      let rows2 := rows1.set fft_ave newLast
      let reduced := if peak then np_max_axis0 rows2 else np_average_axis0 rows2
      some ({ st1 with freqgrabs := rows2 }, reduced)

/-- A concrete lawful `SignalLib` for witnesses: every window is all-ones
(for `boxcar` this is exactly the scipy behavior). -/
def lib1 : SignalLib :=
  { kaiser := fun n _ => List.replicate n 1,
    boxcar := fun n => List.replicate n 1,
    hann := fun n => List.replicate n 1,
    hamming := fun n => List.replicate n 1,
    blackman := fun n => List.replicate n 1,
    blackmanharris := fun n => List.replicate n 1,
    bartlett := fun n => List.replicate n 1,
    barthann := fun n => List.replicate n 1,
    nuttall := fun n => List.replicate n 1 }

/-- An all-zero acquisition (8192 samples), whose FFT magnitudes are zero. -/
def raw0 : List ℚ := List.replicate 8192 0

/-- A constant nonzero acquisition (8192 samples). -/
def raw4 : List ℚ := List.replicate 8192 4

/-- A small reference model state used by the concrete scenarios: an
unzoomed 2-pixel display at a 1 MHz sample rate with no LO offset. -/
def baseState : ModelState :=
  { width := 2, sdr_sample_rate := 1000000, sdr_center_freq := 0, sdr_gain := 0,
    auto_gain := true, model_sample_rate := none, center_freq := 70, zoom_fac := 1,
    lo_offset := 0, swap_iq := true, min_auto_scale := true, max_auto_scale := true,
    min_intensity := none, max_intensity := none, range := none,
    filter := "boxcar", kaiser_beta := 86/10, fft_ave := 3, peak := true }

/-- Width 8191 with the zoom span at the full sample rate: the zoom bin
count is 8191, strictly below `SDR_SAMPLE_SIZE`, yet the pipeline keeps only
`8192` of the requested `8193` values and the frame comes out 8190 long. -/
def cxC1state : ModelState := { baseState with width := 8191 }

/-- Width 1000 at an 8.191 MHz sample rate with a 1 MHz zoom span: the
zoom bin count is exactly 8191, so `Z+2 = 8193 > 8192` while `Z < 8192`. -/
def cxC2state : ModelState :=
  { baseState with width := 1000, sdr_sample_rate := 8191000 }

/-- A state with resolved intensity bounds and auto-scaling enabled. -/
def cxC3state : ModelState :=
  { baseState with
    min_intensity := some (.fin 5), max_intensity := some (.fin 9),
    range := some (.fin 4) }

/-- A state whose window shape is not recognized by the dispatch chain. -/
def cxC5state : ModelState :=
  { baseState with
    filter := "flattop", min_auto_scale := false,
    max_auto_scale := false, min_intensity := some (.fin 0),
    max_intensity := some (.fin 10) }

/-- A zoomed 3-pixel display (2 MHz rate, 1 MHz zoom span): the crop branch
of `get_data` is exercised. -/
def wC1state : ModelState :=
  { baseState with width := 3, sdr_sample_rate := 2000000 }

/-- A width-8192 display, driving the raw zoom bin count to 8192. -/
def wC2state : ModelState := { baseState with width := 8192 }

/-! ### Basic facts about the Python slice model -/

theorem lib1_lawful : lib1.Lawful :=
  ⟨fun n _ => List.length_replicate n 1, fun n => List.length_replicate n 1,
   fun n => List.length_replicate n 1, fun n => List.length_replicate n 1,
   fun n => List.length_replicate n 1, fun n => List.length_replicate n 1,
   fun n => List.length_replicate n 1, fun n => List.length_replicate n 1,
   fun n => List.length_replicate n 1⟩

theorem pyIdx_le (n : ℕ) (i : ℤ) : pyIdx n i ≤ n := by
  unfold pyIdx
  split <;> omega

theorem pyIdx_ofNat (n j : ℕ) : pyIdx n (j : ℤ) = min j n := by
  unfold pyIdx
  split <;> omega

theorem pyIdx_neg (n r : ℕ) (hr : 1 ≤ r) : pyIdx n (-(r : ℤ)) = n - r := by
  unfold pyIdx
  split <;> omega

theorem length_pySlice {α : Type} (a : List α) (i j : ℤ) :
    (pySlice a i j).length = pyIdx a.length j - pyIdx a.length i := by
  have h := pyIdx_le a.length j
  simp only [pySlice, List.length_drop, List.length_take]
  omega

theorem pyIdx_zero (n : ℕ) : pyIdx n 0 = 0 := by
  unfold pyIdx
  split <;> omega

theorem pySlice_zero {α : Type} (a : List α) (j : ℤ) :
    pySlice a 0 j = a.take (pyIdx a.length j) := by
  simp [pySlice, pyIdx_zero]

theorem length_pySlice_zero {α : Type} (a : List α) (j : ℕ) :
    (pySlice a 0 (j : ℤ)).length = min j a.length := by
  rw [length_pySlice, pyIdx_zero, pyIdx_ofNat]
  omega

/-! ### The crop step (model.py lines 340-356) -/

theorem cropOffsets_spec (s : ModelState) (n : ℕ) (h : s.width < n) :
    0 ≤ (cropOffsets s n).1 ∧ 1 ≤ (cropOffsets s n).2 ∧
      (cropOffsets s n).1 + (s.width : ℤ) + (cropOffsets s n).2 = (n : ℤ) := by
  have hfd : extraSamples s n = ((n : ℤ) - (s.width : ℤ)) / 2 :=
    Int.fdiv_eq_ediv _ (by norm_num)
  have habs1 : shiftsweepOf s ≤ |shiftsweepOf s| := le_abs_self _
  have habs2 : -|shiftsweepOf s| ≤ shiftsweepOf s := neg_abs_le _
  unfold cropOffsets cropLextra
  split
  · split <;> omega
  · omega

theorem cropStep_length (s : ModelState) (freqs : List ℚ)
    (h : s.width < freqs.length) :
    (cropStep s freqs).1.length = s.width := by
  have hco := cropOffsets_spec s freqs.length h
  unfold cropStep
  rw [if_pos h]
  obtain ⟨h0, h1, hsum⟩ := hco
  set lr := cropOffsets s freqs.length with hlr
  rw [length_pySlice]
  have hr : ∃ r : ℕ, lr.2 = (r : ℤ) ∧ 1 ≤ r := by
    refine ⟨lr.2.toNat, ?_, ?_⟩ <;> omega
  obtain ⟨r, hr2, hr1⟩ := hr
  have hl : ∃ l : ℕ, lr.1 = (l : ℤ) := ⟨lr.1.toNat, by omega⟩
  obtain ⟨l, hl1⟩ := hl
  rw [hr2, hl1, pyIdx_neg _ _ hr1, pyIdx_ofNat]
  omega

theorem cropStep_length_le (s : ModelState) (freqs : List ℚ)
    (h : ¬ s.width < freqs.length) :
    (cropStep s freqs).1 = freqs := by
  unfold cropStep
  rw [if_neg h]

/-! ### Frame length through the pipeline -/

theorem windowOf_shape (lib : SignalLib) (hl : lib.Lawful) (fl : String) (b : ℚ)
    (j : ℤ) :
    windowOf lib fl b j = .inr 1 ∨
      ∃ w, windowOf lib fl b j = .inl w ∧ w.length = pyIdx SDR_SAMPLE_SIZE j := by
  obtain ⟨h1, h2, h3, h4, h5, h6, h7, h8, h9⟩ := hl
  unfold windowOf
  by_cases c1 : fl = "kaiser"
  · exact .inr ⟨_, by rw [if_pos c1], by rw [length_pySlice, pyIdx_zero, h1]; omega⟩
  rw [if_neg c1]
  by_cases c2 : fl = "boxcar"
  · exact .inr ⟨_, by rw [if_pos c2], by rw [length_pySlice, pyIdx_zero, h2]; omega⟩
  rw [if_neg c2]
  by_cases c3 : fl = "hann"
  · exact .inr ⟨_, by rw [if_pos c3], by rw [length_pySlice, pyIdx_zero, h3]; omega⟩
  rw [if_neg c3]
  by_cases c4 : fl = "hamming"
  · exact .inr ⟨_, by rw [if_pos c4], by rw [length_pySlice, pyIdx_zero, h4]; omega⟩
  rw [if_neg c4]
  by_cases c5 : fl = "blackman"
  · exact .inr ⟨_, by rw [if_pos c5], by rw [length_pySlice, pyIdx_zero, h5]; omega⟩
  rw [if_neg c5]
  by_cases c6 : fl = "blackmanharris"
  · exact .inr ⟨_, by rw [if_pos c6], by rw [length_pySlice, pyIdx_zero, h6]; omega⟩
  rw [if_neg c6]
  by_cases c7 : fl = "bartlett"
  · exact .inr ⟨_, by rw [if_pos c7], by rw [length_pySlice, pyIdx_zero, h7]; omega⟩
  rw [if_neg c7]
  by_cases c8 : fl = "barthann"
  · exact .inr ⟨_, by rw [if_pos c8], by rw [length_pySlice, pyIdx_zero, h8]; omega⟩
  rw [if_neg c8]
  by_cases c9 : fl = "nuttall"
  · exact .inr ⟨_, by rw [if_pos c9], by rw [length_pySlice, pyIdx_zero, h9]; omega⟩
  rw [if_neg c9]
  exact .inl rfl

theorem get_data_frame_length (lib : SignalLib) (fftMag : List ℚ → List ℚ)
    (lg : ℚ → ℚ) (raw : List ℚ) (s : ModelState) (hl : lib.Lawful)
    (hf : ∀ xs, (fftMag xs).length = xs.length) (hraw : raw.length = 8192)
    (hz0 : 0 ≤ (zoomClamped s (zoomRaw s).1 (zoomRaw s).2).1) :
    (get_data lib fftMag lg raw s).1.length =
      if s.width < min ((zoomClamped s (zoomRaw s).1 (zoomRaw s).2).1 + 2).toNat 8192 - 2
      then s.width
      else min ((zoomClamped s (zoomRaw s).1 (zoomRaw s).2).1 + 2).toNat 8192 - 2 := by
  set z := (zoomClamped s (zoomRaw s).1 (zoomRaw s).2).1 with hzdef
  set L := min (z + 2).toNat 8192 with hLdef
  have hL2 : 2 ≤ L := by omega
  -- length of freqbins
  have hbins : (pySlice raw 0 (z + 2)).length = L := by
    have : (z + 2) = (((z + 2).toNat : ℕ) : ℤ) := by omega
    rw [this, length_pySlice_zero, hraw]
  -- length of the windowed samples
  have hsamp :
      (match windowOf lib s.filter s.kaiser_beta (z + 2) with
        | .inl w => List.zipWith (· * ·) (pySlice raw 0 (z + 2)) w
        | .inr c => (pySlice raw 0 (z + 2)).map (· * c)).length = L := by
    rcases windowOf_shape lib hl s.filter s.kaiser_beta (z + 2) with h | ⟨w, hw, hwl⟩
    · rw [h]
      simp [hbins]
    · rw [hw]
      simp only [List.length_zipWith, hbins, hwl]
      have : pyIdx SDR_SAMPLE_SIZE (z + 2) = L := by
        have : (z + 2) = (((z + 2).toNat : ℕ) : ℤ) := by omega
        rw [this, pyIdx_ofNat]
        simp [SDR_SAMPLE_SIZE]
      rw [this]
      omega
  -- length after fft, trim, reverse, fftshift
  have htrim : ∀ l : List ℚ, l.length = L → (pySlice l 1 (-1)).length = L - 2 := by
    intro l hll
    have h1 : (1 : ℤ) = ((1 : ℕ) : ℤ) := rfl
    have hm1 : (-1 : ℤ) = -((1 : ℕ) : ℤ) := rfl
    rw [length_pySlice, hll, hm1, pyIdx_neg _ _ le_rfl, h1, pyIdx_ofNat]
    omega
  have hcrop : ∀ (t : ModelState) (freqs : List ℚ), t.width = s.width →
      freqs.length = L - 2 →
      ((cropStep t freqs).1.map (np_log10_db lg)).length =
        if s.width < L - 2 then s.width else L - 2 := by
    intro t freqs htw hfl
    rw [List.length_map]
    by_cases hc : s.width < L - 2
    · have hc2 : t.width < freqs.length := by omega
      rw [cropStep_length t freqs hc2, htw, if_pos hc]
    · have hc2 : ¬ t.width < freqs.length := by omega
      rw [cropStep_length_le t freqs hc2, hfl, if_neg hc]
  simp only [get_data, ← hzdef]
  refine hcrop _ _ rfl ?_
  simp only [np_fftshift, List.length_rotate]
  split
  · rw [List.length_reverse]
    exact htrim _ (by rw [hf]; exact hsamp)
  · exact htrim _ (by rw [hf]; exact hsamp)

theorem zoomRaw_ge_width (s : ModelState) (hzf : 0 < s.zoom_fac) :
    (s.width : ℤ) ≤ (zoomRaw s).1 := by
  unfold zoomRaw
  split
  · rename_i hlt
    have hr : (1 : ℚ) < (s.sdr_sample_rate / 1000000) / s.zoom_fac :=
      (one_lt_div hzf).mpr hlt
    have h0 : (0 : ℚ) ≤ (s.width : ℚ) * ((s.sdr_sample_rate / 1000000) / s.zoom_fac) :=
      mul_nonneg (Nat.cast_nonneg _) (le_of_lt (lt_trans one_pos hr))
    have hq : (s.width : ℚ) ≤ (s.width : ℚ) * ((s.sdr_sample_rate / 1000000) / s.zoom_fac) := by
      nlinarith [Nat.cast_nonneg (α := ℚ) s.width]
    show (s.width : ℤ) ≤ pyInt _
    unfold pyInt
    rw [if_pos h0]
    exact Int.le_floor.mpr (by push_cast; exact hq)
  · simp

theorem autoscale_update_zoom_fac (t : ModelState) (freqs : List DbVal) :
    (autoscale_update t freqs).zoom_fac = t.zoom_fac := by
  simp only [autoscale_update]
  split <;> split <;> rfl

theorem cropStep_state (t : ModelState) (freqs : List ℚ) :
    (cropStep t freqs).2 =
      if t.width < freqs.length then { t with zoom_fac := (get_freq_step t).2 }
      else t := by
  unfold cropStep
  split <;> rfl

theorem cropStep_fst (t : ModelState) (freqs : List ℚ) :
    (cropStep t freqs).1 =
      if t.width < freqs.length then
        pySlice freqs (cropOffsets t freqs.length).1 (-(cropOffsets t freqs.length).2)
      else freqs := by
  unfold cropStep
  split <;> rfl

theorem cropStep_zoom_fac_fix (t : ModelState) (freqs : List ℚ)
    (h : t.zoom_fac = t.sdr_sample_rate / 1000000) :
    (cropStep t freqs).2.zoom_fac = t.zoom_fac := by
  rw [cropStep_state, apply_ite ModelState.zoom_fac]
  have h2 : ({ t with zoom_fac := (get_freq_step t).2 } : ModelState).zoom_fac =
      t.zoom_fac := by
    show (get_freq_step t).2 = t.zoom_fac
    unfold get_freq_step
    rw [h, if_neg (lt_irrefl _)]
  rw [h2, ite_self]

/-- Claim C10: in the crop step (shifted spectrum strictly longer than the
display width, `swap_iq` a boolean), `lextra` is always assigned with
`lextra ≥ 0` and `rextra ≥ 1`, so the slice `freqs[lextra:-rextra]` is
well-defined, never empty, and has exactly `width` elements. -/
theorem claim_C10 (s : ModelState) (freqs : List ℚ)
    (hw : 1 ≤ s.width) (hlen : s.width < freqs.length) :
    0 ≤ (cropOffsets s freqs.length).1 ∧ 1 ≤ (cropOffsets s freqs.length).2 ∧
    (cropStep s freqs).1.length = s.width ∧ (cropStep s freqs).1 ≠ [] := by
  obtain ⟨h0, h1, hsum⟩ := cropOffsets_spec s freqs.length hlen
  have hlen2 := cropStep_length s freqs hlen
  refine ⟨h0, h1, hlen2, ?_⟩
  intro hnil
  rw [hnil] at hlen2
  simp at hlen2
  omega

theorem claim_C10_witness :
    (cropStep wC1state [10, 20, 30, 40, 50, 60]).1.length = wC1state.width ∧
    (cropStep wC1state [10, 20, 30, 40, 50, 60]).1 ≠ [] :=
  ⟨(claim_C10 wC1state [10, 20, 30, 40, 50, 60]
      (by norm_num [wC1state, baseState]) (by norm_num [wC1state, baseState])).2.2.1,
   (claim_C10 wC1state [10, 20, 30, 40, 50, 60]
      (by norm_num [wC1state, baseState]) (by norm_num [wC1state, baseState])).2.2.2⟩

/-- Claim C1, amended: for a display width of at least 1 with
`width + 2 ≤ N` (not merely a zoom bin count below `N`), with a positive
zoom factor and a zoom bin count below `N = 8192`, `get_data` returns
exactly `width` values, in both the no-crop and the crop branch. -/
theorem claim_C1 (lib : SignalLib) (fftMag : List ℚ → List ℚ) (lg : ℚ → ℚ)
    (raw : List ℚ) (s : ModelState) (hl : lib.Lawful)
    (hf : ∀ xs, (fftMag xs).length = xs.length) (hraw : raw.length = 8192)
    (hzf : 0 < s.zoom_fac) (hw1 : 1 ≤ s.width) (hw2 : s.width + 2 ≤ 8192)
    (hvalid : (zoomRaw s).1 < 8192) :
    (get_data lib fftMag lg raw s).1.length = s.width := by
  have hge := zoomRaw_ge_width s hzf
  have hclamp : zoomClamped s (zoomRaw s).1 (zoomRaw s).2 =
      ((zoomRaw s).1, (zoomRaw s).2) := by
    unfold zoomClamped
    rw [if_pos]
    show (zoomRaw s).1 < ((8192 : ℕ) : ℤ)
    omega
  have hz0 : 0 ≤ (zoomClamped s (zoomRaw s).1 (zoomRaw s).2).1 := by
    rw [hclamp]
    show 0 ≤ (zoomRaw s).1
    omega
  rw [get_data_frame_length lib fftMag lg raw s hl hf hraw hz0, hclamp]
  show (if s.width < min ((zoomRaw s).1 + 2).toNat 8192 - 2 then s.width
    else min ((zoomRaw s).1 + 2).toNat 8192 - 2) = s.width
  split <;> omega

theorem claim_C1_witness :
    (get_data lib1 id id raw4 wC1state).1.length = wC1state.width :=
  claim_C1 lib1 id id raw4 wC1state lib1_lawful (fun _ => rfl)
    (by rw [raw4]; exact List.length_replicate 8192 4) (by norm_num [wC1state, baseState])
    (by norm_num [wC1state, baseState]) (by norm_num [wC1state, baseState])
    (by norm_num [zoomRaw, wC1state, baseState, pyInt])

/-- Claim C1, counterexample to the claim as stated: at width 8191 the zoom
bin count is 8191, strictly below `N = 8192` (and the width is at least 1),
yet `get_data` returns 8190 values, not `width`. -/
theorem claim_C1_cx :
    1 ≤ cxC1state.width ∧ (zoomRaw cxC1state).1 < 8192 ∧
    (get_data lib1 id id raw0 cxC1state).1.length = 8190 ∧
    (get_data lib1 id id raw0 cxC1state).1.length ≠ cxC1state.width := by
  have hzr : zoomRaw cxC1state = ((8191 : ℤ), 1) := by
    norm_num [zoomRaw, cxC1state, baseState]
  have hz0 : 0 ≤ (zoomClamped cxC1state (zoomRaw cxC1state).1 (zoomRaw cxC1state).2).1 := by
    rw [hzr]
    show 0 ≤ (zoomClamped cxC1state 8191 1).1
    norm_num [zoomClamped, SDR_SAMPLE_SIZE]
  have hlen := get_data_frame_length lib1 id id raw0 cxC1state lib1_lawful
    (fun _ => rfl) (by rw [raw0]; exact List.length_replicate 8192 0) hz0
  rw [hzr] at hlen
  have hzc : zoomClamped cxC1state 8191 1 = ((8191 : ℤ), 1) := by
    norm_num [zoomClamped, SDR_SAMPLE_SIZE]
  rw [hzc] at hlen
  norm_num at hlen
  refine ⟨by norm_num [cxC1state, baseState], by rw [hzr]; norm_num, hlen, ?_⟩
  rw [hlen]
  norm_num [cxC1state, baseState]

/-- Claim C2, amended: the acquisition guard clamps exactly when the zoom
bin count `Z` reaches `N = 8192` (equivalently `Z + 2 > N + 1`, not
`Z + 2 > N`): then `Z` is reset to the display width, the sample slice is
taken with the clamped count, and the effective zoom span (`zoom_fac`, also
as returned in the post-`get_data` state) is the full sample rate. -/
theorem claim_C2 (lib : SignalLib) (fftMag : List ℚ → List ℚ) (lg : ℚ → ℚ)
    (raw : List ℚ) (s : ModelState) (h : (8192 : ℤ) ≤ (zoomRaw s).1) :
    zoomClamped s (zoomRaw s).1 (zoomRaw s).2 =
      ((s.width : ℤ), s.sdr_sample_rate / 1000000) ∧
    pySlice raw 0 ((zoomClamped s (zoomRaw s).1 (zoomRaw s).2).1 + 2) =
      pySlice raw 0 ((s.width : ℤ) + 2) ∧
    (get_data lib fftMag lg raw s).2.zoom_fac = s.sdr_sample_rate / 1000000 := by
  have hclamp : zoomClamped s (zoomRaw s).1 (zoomRaw s).2 =
      ((s.width : ℤ), s.sdr_sample_rate / 1000000) := by
    unfold zoomClamped
    rw [if_neg]
    show ¬ (zoomRaw s).1 < ((8192 : ℕ) : ℤ)
    omega
  refine ⟨hclamp, by rw [hclamp], ?_⟩
  simp only [get_data, hclamp]
  rw [autoscale_update_zoom_fac, cropStep_zoom_fac_fix]
  rfl

theorem claim_C2_witness :
    (8192 : ℤ) ≤ (zoomRaw wC2state).1 ∧
    (get_data lib1 id id raw0 wC2state).2.zoom_fac =
      wC2state.sdr_sample_rate / 1000000 :=
  ⟨by norm_num [zoomRaw, wC2state, baseState],
   (claim_C2 lib1 id id raw0 wC2state
      (by norm_num [zoomRaw, wC2state, baseState])).2.2⟩

/-- Claim C2, counterexample to the claim as stated: at `Z = 8191` we have
`Z + 2 = 8193 > 8192 = N`, yet the guard does not clamp — the zoom stays
8191 (not the display width 1000) and the zoom span stays 1 MHz (not the
8.191 MHz sample rate). -/
theorem claim_C2_cx :
    zoomRaw cxC2state = ((8191 : ℤ), 1) ∧
    (8192 : ℤ) < (zoomRaw cxC2state).1 + 2 ∧
    zoomClamped cxC2state (zoomRaw cxC2state).1 (zoomRaw cxC2state).2 =
      ((8191 : ℤ), 1) ∧
    (8191 : ℤ) ≠ (cxC2state.width : ℤ) ∧
    (1 : ℚ) ≠ cxC2state.sdr_sample_rate / 1000000 := by
  have h1 : zoomRaw cxC2state = ((8191 : ℤ), 1) := by
    norm_num [zoomRaw, cxC2state, baseState, pyInt]
  refine ⟨h1, by rw [h1]; norm_num, ?_, by norm_num [cxC2state, baseState],
    by norm_num [cxC2state, baseState]⟩
  rw [h1]
  show zoomClamped cxC2state 8191 1 = ((8191 : ℤ), 1)
  norm_num [zoomClamped, SDR_SAMPLE_SIZE]

/-- Claim C3, amended: only `set_center_freq`, `set_gain`,
`set_min_intensity` and `set_max_intensity` clear the intensity state
(each auto-scaled bound becomes `None` and `range` is cleared);
`set_sample_rate` and `set_zoom_fac` do not clear anything — they leave
`min_intensity`, `max_intensity` and `range` untouched. -/
theorem claim_C3 :
    (∀ (s : ModelState) (v : ℚ),
       ((set_center_freq s v).min_auto_scale = true →
          (set_center_freq s v).min_intensity = none) ∧
       ((set_center_freq s v).max_auto_scale = true →
          (set_center_freq s v).max_intensity = none) ∧
       (set_center_freq s v).range = none) ∧
    (∀ (s : ModelState) (g : Option ℚ),
       ((set_gain s g).min_auto_scale = true → (set_gain s g).min_intensity = none) ∧
       ((set_gain s g).max_auto_scale = true → (set_gain s g).max_intensity = none) ∧
       (set_gain s g).range = none) ∧
    (∀ (s : ModelState) (i : Option ℚ),
       ((set_min_intensity s i).min_auto_scale = true →
          (set_min_intensity s i).min_intensity = none) ∧
       ((set_min_intensity s i).max_auto_scale = true →
          (set_min_intensity s i).max_intensity = none) ∧
       (set_min_intensity s i).range = none) ∧
    (∀ (s : ModelState) (i : Option ℚ),
       ((set_max_intensity s i).min_auto_scale = true →
          (set_max_intensity s i).min_intensity = none) ∧
       ((set_max_intensity s i).max_auto_scale = true →
          (set_max_intensity s i).max_intensity = none) ∧
       (set_max_intensity s i).range = none) ∧
    (∀ (s : ModelState) (q : ℚ),
       (set_zoom_fac s q).min_intensity = s.min_intensity ∧
       (set_zoom_fac s q).max_intensity = s.max_intensity ∧
       (set_zoom_fac s q).range = s.range) ∧
    (∀ (s : ModelState) (q : ℚ),
       (set_sample_rate s q).min_intensity = s.min_intensity ∧
       (set_sample_rate s q).max_intensity = s.max_intensity ∧
       (set_sample_rate s q).range = s.range) := by
  refine ⟨?_, ?_, ?_, ?_, ?_, ?_⟩
  · intro s v
    refine ⟨fun h => ?_, fun h => ?_, rfl⟩
    · simp only [set_center_freq, _clear_intensity] at h ⊢
      simp [h]
    · simp only [set_center_freq, _clear_intensity] at h ⊢
      simp [h]
  · intro s g
    cases g
    · refine ⟨fun h => ?_, fun h => ?_, rfl⟩ <;>
        · simp only [set_gain, _clear_intensity] at h ⊢
          simp [h]
    · refine ⟨fun h => ?_, fun h => ?_, rfl⟩ <;>
        · simp only [set_gain, _clear_intensity] at h ⊢
          simp [h]
  · intro s i
    cases i
    · refine ⟨fun h => ?_, fun h => ?_, rfl⟩ <;>
        · simp only [set_min_intensity, _clear_intensity] at h ⊢
          simp [h]
    · refine ⟨fun h => ?_, fun h => ?_, rfl⟩ <;>
        · simp only [set_min_intensity, _clear_intensity] at h ⊢
          simp [h]
  · intro s i
    cases i
    · refine ⟨fun h => ?_, fun h => ?_, rfl⟩ <;>
        · simp only [set_max_intensity, _clear_intensity] at h ⊢
          simp [h]
    · refine ⟨fun h => ?_, fun h => ?_, rfl⟩ <;>
        · simp only [set_max_intensity, _clear_intensity] at h ⊢
          simp [h]
  · intro s q
    exact ⟨rfl, rfl, rfl⟩
  · intro s q
    unfold set_sample_rate
    split <;> exact ⟨rfl, rfl, rfl⟩

theorem claim_C3_witness :
    (set_center_freq cxC3state 1).min_intensity = none ∧
    (set_center_freq cxC3state 1).max_intensity = none ∧
    (set_center_freq cxC3state 1).range = none ∧
    (set_zoom_fac cxC3state 2).min_intensity = cxC3state.min_intensity :=
  ⟨(claim_C3.1 cxC3state 1).1 rfl, (claim_C3.1 cxC3state 1).2.1 rfl,
   (claim_C3.1 cxC3state 1).2.2, (claim_C3.2.2.2.2.1 cxC3state 2).1⟩

/-- Claim C3, counterexample to the claim as stated: with auto-scaling on
both axes and resolved bounds, `set_zoom_fac` (and `set_sample_rate`)
leaves both bounds resolved and the range intact — nothing is cleared. -/
theorem claim_C3_cx :
    cxC3state.min_auto_scale = true ∧ cxC3state.max_auto_scale = true ∧
    (set_zoom_fac cxC3state 2).min_intensity = some (.fin 5) ∧
    (set_zoom_fac cxC3state 2).max_intensity = some (.fin 9) ∧
    (set_zoom_fac cxC3state 2).range = some (.fin 4) ∧
    (set_sample_rate cxC3state 1).min_intensity = some (.fin 5) ∧
    (set_sample_rate cxC3state 1).range = some (.fin 4) := by
  refine ⟨rfl, rfl, rfl, rfl, rfl, ?_, ?_⟩ <;>
    · unfold set_sample_rate
      split <;> rfl

/-- Claim C4, amended: for the input `0.1667` (and for the exact
normalization `1/6`), the gradient built from
`[(0,0,255),(0,255,255),(255,255,0),(255,0,0)]` returns `(0, 127, 255)` —
the segment-0 interpolation at `x = 0.5` with each channel floored
(`floor(127.5) = 127`, not `128`). -/
theorem claim_C4 :
    gradient_func WATERFALL_GRAD (1667/10000) = ((0 : ℤ), (127 : ℤ), (255 : ℤ)) ∧
    gradient_func WATERFALL_GRAD (1/6) = ((0 : ℤ), (127 : ℤ), (255 : ℤ)) := by
  constructor <;>
    norm_num [gradient_func, WATERFALL_GRAD, pyGet, pyInt, pyMod, rgb_lerp, lerp,
      List.getD]

/-- Claim C4, counterexample to the claim as stated: the gradient value at
`0.1667` is not `(0, 128, 255)`. -/
theorem claim_C4_cx :
    gradient_func WATERFALL_GRAD (1667/10000) ≠ ((0 : ℤ), (128 : ℤ), (255 : ℤ)) := by
  have h : gradient_func WATERFALL_GRAD (1667/10000) =
      ((0 : ℤ), (127 : ℤ), (255 : ℤ)) := by
    norm_num [gradient_func, WATERFALL_GRAD, pyGet, pyInt, pyMod, rgb_lerp, lerp,
      List.getD]
  rw [h]
  decide

/-! ### Unrecognized window shapes fall back to the scalar window 1 -/

theorem zipWith_one_mul (l : List ℚ) (n : ℕ) (h : l.length ≤ n) :
    List.zipWith (· * ·) l (List.replicate n 1) = l := by
  induction l generalizing n with
  | nil => rfl
  | cons x xs ih =>
    cases n with
    | zero => simp at h
    | succ m =>
      simp only [List.replicate_succ, List.zipWith_cons_cons, mul_one]
      rw [ih m (by simpa using h)]

theorem windowOf_unrecognized (lib : SignalLib) (fl : String)
    (h : fl ∉ recognizedShapes) (b : ℚ) (j : ℤ) :
    windowOf lib fl b j = .inr 1 := by
  simp only [recognizedShapes, List.mem_cons, List.not_mem_nil, or_false,
    not_or] at h
  obtain ⟨h1, h2, h3, h4, h5, h6, h7, h8, h9⟩ := h
  unfold windowOf
  rw [if_neg h1, if_neg h2, if_neg h3, if_neg h4, if_neg h5, if_neg h6,
    if_neg h7, if_neg h8, if_neg h9]

theorem windowOf_boxcar (lib : SignalLib) (b : ℚ) (j : ℤ) :
    windowOf lib "boxcar" b j = .inl (pySlice (lib.boxcar SDR_SAMPLE_SIZE) 0 j) := by
  unfold windowOf
  rw [if_neg (by decide), if_pos rfl]

theorem zipWith_boxcar (raw : List ℚ) (j : ℤ) (hraw : raw.length = 8192) :
    List.zipWith (· * ·) (pySlice raw 0 j)
      (pySlice (List.replicate 8192 (1 : ℚ)) 0 j) = pySlice raw 0 j := by
  rw [pySlice_zero, pySlice_zero, List.length_replicate, List.take_replicate, hraw]
  have hle := pyIdx_le 8192 j
  have hlen : (raw.take (pyIdx 8192 j)).length = pyIdx 8192 j := by
    rw [List.length_take, hraw]
    omega
  have hmin : min (pyIdx 8192 j) 8192 = pyIdx 8192 j := by omega
  rw [hmin]
  exact zipWith_one_mul _ _ (le_of_eq hlen)

theorem unrecognized_eq_boxcar (lib : SignalLib) (fftMag : List ℚ → List ℚ)
    (lg : ℚ → ℚ) (raw : List ℚ) (s : ModelState)
    (hshape : s.filter ∉ recognizedShapes)
    (hbox : ∀ n, lib.boxcar n = List.replicate n 1)
    (hraw : raw.length = 8192) :
    (get_data lib fftMag lg raw s).1 =
      (get_data lib fftMag lg raw { s with filter := "boxcar" }).1 := by
  simp only [get_data]
  rw [windowOf_unrecognized lib s.filter hshape, windowOf_boxcar lib]
  dsimp only
  rw [hbox]
  simp only [SDR_SAMPLE_SIZE]
  rw [zipWith_boxcar raw _ hraw]
  simp only [mul_one, List.map_id']
  rw [cropStep_fst, cropStep_fst]
  rfl

/-- Claim C5, amended: a window shape outside the recognized set is NOT
rejected — the dispatch falls through to the bare scalar `window = 1`
(no taper, no error), and the resulting spectral frame is exactly the one
the boxcar (all-ones) window would produce: the configuration silently
behaves as rectangular. -/
theorem claim_C5 (lib : SignalLib) (fftMag : List ℚ → List ℚ) (lg : ℚ → ℚ)
    (raw : List ℚ) (s : ModelState)
    (hshape : s.filter ∉ recognizedShapes)
    (hbox : ∀ n, lib.boxcar n = List.replicate n 1)
    (hraw : raw.length = 8192) :
    (∀ (b : ℚ) (j : ℤ), windowOf lib s.filter b j = .inr 1) ∧
    (get_data lib fftMag lg raw s).1 =
      (get_data lib fftMag lg raw { s with filter := "boxcar" }).1 :=
  ⟨windowOf_unrecognized lib s.filter hshape,
   unrecognized_eq_boxcar lib fftMag lg raw s hshape hbox hraw⟩

theorem claim_C5_witness :
    windowOf lib1 cxC5state.filter (86/10) 4 = Sum.inr 1 ∧
    (get_data lib1 id id raw4 cxC5state).1 =
      (get_data lib1 id id raw4 { cxC5state with filter := "boxcar" }).1 :=
  ⟨(claim_C5 lib1 id id raw4 cxC5state (by decide) (fun _ => rfl)
      (by rw [raw4]; exact List.length_replicate 8192 4)).1 (86/10) 4,
   (claim_C5 lib1 id id raw4 cxC5state (by decide) (fun _ => rfl)
      (by rw [raw4]; exact List.length_replicate 8192 4)).2⟩

/-- Claim C5, counterexample to the claim as stated: with the unrecognized
shape "flattop" the pipeline raises no error — it produces a full
`width`-length frame, and that frame is identical to the one produced with
the boxcar window (silent rectangular substitution). -/
theorem claim_C5_cx :
    cxC5state.filter ∉ recognizedShapes ∧
    (get_data lib1 id id raw4 cxC5state).1 =
      (get_data lib1 id id raw4 { cxC5state with filter := "boxcar" }).1 ∧
    (get_data lib1 id id raw4 cxC5state).1.length = cxC5state.width := by
  refine ⟨by decide, unrecognized_eq_boxcar lib1 id id raw4 cxC5state (by decide)
    (fun _ => rfl) (by rw [raw4]; exact List.length_replicate 8192 4), ?_⟩
  have hzr : zoomRaw cxC5state = ((2 : ℤ), 1) := by
    norm_num [zoomRaw, cxC5state, baseState]
  have hz0 : 0 ≤ (zoomClamped cxC5state (zoomRaw cxC5state).1 (zoomRaw cxC5state).2).1 := by
    rw [hzr]
    show 0 ≤ (zoomClamped cxC5state 2 1).1
    norm_num [zoomClamped, SDR_SAMPLE_SIZE]
  have hlen := get_data_frame_length lib1 id id raw4 cxC5state lib1_lawful
    (fun _ => rfl) (by rw [raw4]; exact List.length_replicate 8192 4) hz0
  rw [hzr] at hlen
  have hzc : zoomClamped cxC5state 2 1 = ((2 : ℤ), 1) := by
    norm_num [zoomClamped, SDR_SAMPLE_SIZE]
  rw [hzc] at hlen
  norm_num at hlen
  rw [hlen]
  rfl

/-! ### Order facts about `DbVal` -/

theorem dbLeB_refl (a : DbVal) (h : a ≠ .nan) : dbLeB a a = true := by
  cases a <;> simp_all [dbLeB]

theorem dbLeB_ne_nan {a b : DbVal} (h : dbLeB a b = true) : a ≠ .nan ∧ b ≠ .nan := by
  cases a <;> cases b <;> simp_all [dbLeB]

theorem not_dbLtB_le (a b : DbVal) (ha : a ≠ .nan) (hb : b ≠ .nan)
    (h : dbLtB b a = false) : dbLeB a b = true := by
  cases a <;> cases b <;> simp_all [dbLtB, dbLeB]

theorem dbLeB_trans (a b c : DbVal) (hab : dbLeB a b = true)
    (hbc : dbLeB b c = true) : dbLeB a c = true := by
  cases a <;> cases b <;> cases c <;> simp_all [dbLeB] <;> linarith

theorem pyMin_le (a b : DbVal) (ha : a ≠ .nan) (hb : b ≠ .nan) :
    dbLeB (pyMin a b) b = true ∧ pyMin a b ≠ .nan := by
  unfold pyMin
  by_cases h : dbLtB b a = true
  · rw [if_pos h]
    exact ⟨dbLeB_refl b hb, hb⟩
  · rw [if_neg h]
    exact ⟨not_dbLtB_le a b ha hb (by simpa using h), ha⟩

theorem pyMax_ge (a b : DbVal) (ha : a ≠ .nan) (hb : b ≠ .nan) :
    dbLeB b (pyMax a b) = true ∧ pyMax a b ≠ .nan := by
  unfold pyMax
  by_cases h : dbLtB a b = true
  · rw [if_pos h]
    exact ⟨dbLeB_refl b hb, hb⟩
  · rw [if_neg h]
    exact ⟨not_dbLtB_le b a hb ha (by simpa using h), ha⟩

theorem dbMin_isFin (a b : DbVal) (ha : a.isFin = true) (hb : b.isFin = true) :
    (dbMin a b).isFin = true := by
  unfold dbMin
  split
  · rename_i h
    rcases h with h | h <;> simp_all [DbVal.isFin]
  · split
    · exact ha
    · exact hb

theorem dbMax_isFin (a b : DbVal) (ha : a.isFin = true) (hb : b.isFin = true) :
    (dbMax a b).isFin = true := by
  unfold dbMax
  split
  · rename_i h
    rcases h with h | h <;> simp_all [DbVal.isFin]
  · split
    · exact hb
    · exact ha

theorem isFin_ne_nan {a : DbVal} (h : a.isFin = true) : a ≠ .nan := by
  cases a <;> simp_all [DbVal.isFin]

theorem foldl_dbMin_isFin (l : List DbVal) (a : DbVal)
    (hl : ∀ x ∈ l, x.isFin = true) (ha : a.isFin = true) :
    (l.foldl dbMin a).isFin = true := by
  induction l generalizing a with
  | nil => exact ha
  | cons x xs ih =>
    exact ih (dbMin a x) (fun y hy => hl y (List.mem_cons_of_mem _ hy))
      (dbMin_isFin a x ha (hl x (List.mem_cons_self _ _)))

theorem foldl_dbMax_isFin (l : List DbVal) (a : DbVal)
    (hl : ∀ x ∈ l, x.isFin = true) (ha : a.isFin = true) :
    (l.foldl dbMax a).isFin = true := by
  induction l generalizing a with
  | nil => exact ha
  | cons x xs ih =>
    exact ih (dbMax a x) (fun y hy => hl y (List.mem_cons_of_mem _ hy))
      (dbMax_isFin a x ha (hl x (List.mem_cons_self _ _)))

theorem np_min_isFin (l : List DbVal) (hl : ∀ x ∈ l, x.isFin = true)
    (hne : l ≠ []) : (np_min l).isFin = true := by
  cases l with
  | nil => exact absurd rfl hne
  | cons x xs =>
    exact foldl_dbMin_isFin xs x (fun y hy => hl y (List.mem_cons_of_mem _ hy))
      (hl x (List.mem_cons_self _ _))

theorem np_max_isFin (l : List DbVal) (hl : ∀ x ∈ l, x.isFin = true)
    (hne : l ≠ []) : (np_max l).isFin = true := by
  cases l with
  | nil => exact absurd rfl hne
  | cons x xs =>
    exact foldl_dbMax_isFin xs x (fun y hy => hl y (List.mem_cons_of_mem _ hy))
      (hl x (List.mem_cons_self _ _))

/-! ### The auto-scale tracker (model.py lines 367-377) -/

theorem autoscale_update_min (t : ModelState) (freqs : List DbVal)
    (h : t.min_auto_scale = true) :
    (autoscale_update t freqs).min_intensity =
      some (match t.min_intensity with
        | none => np_min freqs
        | some old => pyMin (np_min freqs) old) := by
  simp only [autoscale_update]
  rw [if_pos h]
  dsimp only
  by_cases hmax : t.max_auto_scale = true
  · rw [if_pos hmax]
  · rw [if_neg hmax]

theorem autoscale_update_max (t : ModelState) (freqs : List DbVal)
    (h : t.max_auto_scale = true) :
    (autoscale_update t freqs).max_intensity =
      some (match t.max_intensity with
        | none => np_max freqs
        | some old => pyMax (np_max freqs) old) := by
  simp only [autoscale_update]
  by_cases hmin : t.min_auto_scale = true
  · rw [if_pos hmin]
    dsimp only
    rw [if_pos h]
  · rw [if_neg hmin]
    rw [if_pos h]

theorem autoscale_update_flags (t : ModelState) (freqs : List DbVal) :
    (autoscale_update t freqs).min_auto_scale = t.min_auto_scale ∧
    (autoscale_update t freqs).max_auto_scale = t.max_auto_scale := by
  simp only [autoscale_update]
  constructor <;> (split <;> split <;> rfl)

theorem autoscale_step_min (t : ModelState) (f : List DbVal)
    (hauto : t.min_auto_scale = true)
    (hfin : ∀ x ∈ f, x.isFin = true) (hne : f ≠ [])
    (m0 : DbVal) (hm : t.min_intensity = some m0) (hm0 : m0 ≠ .nan) :
    ∃ m1, (autoscale_update t f).min_intensity = some m1 ∧
      dbLeB m1 m0 = true ∧ m1 ≠ .nan := by
  rw [autoscale_update_min t f hauto, hm]
  have hfn : np_min f ≠ .nan := isFin_ne_nan (np_min_isFin f hfin hne)
  exact ⟨pyMin (np_min f) m0, rfl, (pyMin_le _ _ hfn hm0).1, (pyMin_le _ _ hfn hm0).2⟩

theorem autoscale_step_max (t : ModelState) (f : List DbVal)
    (hauto : t.max_auto_scale = true)
    (hfin : ∀ x ∈ f, x.isFin = true) (hne : f ≠ [])
    (M0 : DbVal) (hM : t.max_intensity = some M0) (hM0 : M0 ≠ .nan) :
    ∃ M1, (autoscale_update t f).max_intensity = some M1 ∧
      dbLeB M0 M1 = true ∧ M1 ≠ .nan := by
  rw [autoscale_update_max t f hauto, hM]
  have hfn : np_max f ≠ .nan := isFin_ne_nan (np_max_isFin f hfin hne)
  exact ⟨pyMax (np_max f) M0, rfl, (pyMax_ge _ _ hfn hM0).1, (pyMax_ge _ _ hfn hM0).2⟩

/-- Claim C9: across any sequence of frames processed with no intervening
reset, with both axes in auto mode and all frame values finite (and each
frame nonempty, as every real frame is), the tracked `min_intensity` is
non-increasing and the tracked `max_intensity` is non-decreasing under the
IEEE order: each bound only widens, never narrows. -/
theorem claim_C9 (frames : List (List DbVal)) (s : ModelState)
    (hmin : s.min_auto_scale = true) (hmax : s.max_auto_scale = true)
    (hframes : ∀ f ∈ frames, (∀ x ∈ f, x.isFin = true) ∧ f ≠ [])
    (m0 M0 : DbVal) (hm : s.min_intensity = some m0)
    (hM : s.max_intensity = some M0) (hm0 : m0 ≠ .nan) (hM0 : M0 ≠ .nan) :
    ∃ m1 M1, (frames.foldl autoscale_update s).min_intensity = some m1 ∧
      (frames.foldl autoscale_update s).max_intensity = some M1 ∧
      dbLeB m1 m0 = true ∧ dbLeB M0 M1 = true := by
  induction frames generalizing s m0 M0 with
  | nil => exact ⟨m0, M0, hm, hM, dbLeB_refl m0 hm0, dbLeB_refl M0 hM0⟩
  | cons f fs ih =>
    obtain ⟨hffin, hfne⟩ := hframes f (List.mem_cons_self _ _)
    obtain ⟨m1, hm1, hle1, hm1n⟩ := autoscale_step_min s f hmin hffin hfne m0 hm hm0
    obtain ⟨M1, hM1, hge1, hM1n⟩ := autoscale_step_max s f hmax hffin hfne M0 hM hM0
    have hflags := autoscale_update_flags s f
    obtain ⟨m2, M2, h2a, h2b, h2c, h2d⟩ := ih (autoscale_update s f)
      (hflags.1.trans hmin) (hflags.2.trans hmax)
      (fun g hg => hframes g (List.mem_cons_of_mem _ hg)) m1 M1 hm1 hM1 hm1n hM1n
    exact ⟨m2, M2, h2a, h2b, dbLeB_trans _ _ _ h2c hle1, dbLeB_trans _ _ _ hge1 h2d⟩

theorem claim_C9_witness :
    ∃ m1 M1,
      (([[DbVal.fin 3, DbVal.fin 11]] : List (List DbVal)).foldl
          autoscale_update cxC3state).min_intensity = some m1 ∧
      (([[DbVal.fin 3, DbVal.fin 11]] : List (List DbVal)).foldl
          autoscale_update cxC3state).max_intensity = some M1 ∧
      dbLeB m1 (DbVal.fin 5) = true ∧ dbLeB (DbVal.fin 9) M1 = true :=
  claim_C9 [[DbVal.fin 3, DbVal.fin 11]] cxC3state rfl rfl
    (by decide) (DbVal.fin 5) (DbVal.fin 9) rfl rfl (by decide) (by decide)

/-! ### Non-positive magnitudes and the dB conversion (model.py line 359) -/

theorem dbMin_negInf_left (b : DbVal) (hb : b ≠ .nan) :
    dbMin .negInf b = .negInf := by
  cases b <;> simp_all [dbMin, dbLtB]

theorem dbMin_negInf_right (a : DbVal) (ha : a ≠ .nan) :
    dbMin a .negInf = .negInf := by
  cases a <;> simp_all [dbMin, dbLtB]

theorem dbMin_ne_nan (a b : DbVal) (ha : a ≠ .nan) (hb : b ≠ .nan) :
    dbMin a b ≠ .nan := by
  unfold dbMin
  rw [if_neg (by tauto)]
  split
  · exact ha
  · exact hb

theorem foldl_dbMin_negInf (l : List DbVal) (a : DbVal) (ha : a ≠ .nan)
    (hl : ∀ x ∈ l, x ≠ .nan) (hmem : a = .negInf ∨ .negInf ∈ l) :
    l.foldl dbMin a = .negInf := by
  induction l generalizing a with
  | nil =>
    rcases hmem with h | h
    · exact h ▸ rfl
    · cases h
  | cons x xs ih =>
    have hx : x ≠ .nan := hl x (List.mem_cons_self _ _)
    have hxs : ∀ y ∈ xs, y ≠ .nan := fun y hy => hl y (List.mem_cons_of_mem _ hy)
    rcases hmem with h | h
    · subst h
      exact ih (dbMin .negInf x) (dbMin_ne_nan _ _ ha hx) hxs
        (.inl (dbMin_negInf_left x hx))
    · rcases List.mem_cons.mp h with h | h
      · subst h
        exact ih (dbMin a .negInf) (dbMin_ne_nan _ _ ha hx) hxs
          (.inl (dbMin_negInf_right a ha))
      · exact ih (dbMin a x) (dbMin_ne_nan _ _ ha hx) hxs (.inr h)

theorem np_min_negInf (l : List DbVal) (hmem : DbVal.negInf ∈ l)
    (hnan : DbVal.nan ∉ l) : np_min l = .negInf := by
  cases l with
  | nil => cases hmem
  | cons x xs =>
    unfold np_min
    refine foldl_dbMin_negInf xs x ?_ ?_ ?_
    · intro h
      exact hnan (h ▸ List.mem_cons_self _ _)
    · intro y hy h
      exact hnan (h ▸ List.mem_cons_of_mem _ hy)
    · rcases List.mem_cons.mp hmem with h | h
      · exact .inl h.symm
      · exact .inr h

theorem pyMin_negInf_left (b : DbVal) : pyMin .negInf b = .negInf := by
  cases b <;> rfl

theorem autoscale_min_negInf (t : ModelState) (freqs : List DbVal)
    (hauto : t.min_auto_scale = true) (hmem : DbVal.negInf ∈ freqs)
    (hnan : DbVal.nan ∉ freqs) :
    (autoscale_update t freqs).min_intensity = some DbVal.negInf := by
  rw [autoscale_update_min t freqs hauto, np_min_negInf freqs hmem hnan]
  cases hmi : t.min_intensity with
  | none => rfl
  | some old => simp [pyMin_negInf_left]

/-- Claim C6, amended: `get_data` applies `20*log10` with no floor or clamp.
A magnitude bin of exactly 0 yields `-inf` and a negative bin would yield
`nan` — never a finite value — and when the min axis is auto-scaled, a frame
containing `-inf` (and no `nan`) drives `min_intensity` to `-inf`: the
non-finite value IS propagated into the auto-scale bounds. -/
theorem claim_C6 :
    (∀ (lg : ℚ → ℚ) (x : ℚ), x ≤ 0 →
       np_log10_db lg x = DbVal.negInf ∨ np_log10_db lg x = DbVal.nan) ∧
    (∀ (t : ModelState) (freqs : List DbVal), t.min_auto_scale = true →
       DbVal.negInf ∈ freqs → DbVal.nan ∉ freqs →
       (autoscale_update t freqs).min_intensity = some DbVal.negInf) := by
  constructor
  · intro lg x hx
    unfold np_log10_db
    rw [if_neg (by linarith)]
    by_cases h0 : x = 0
    · rw [if_pos h0]
      exact .inl rfl
    · rw [if_neg h0]
      exact .inr rfl
  · exact autoscale_min_negInf

theorem claim_C6_witness :
    (np_log10_db id 0 = DbVal.negInf ∨ np_log10_db id 0 = DbVal.nan) ∧
    (autoscale_update baseState [DbVal.negInf, DbVal.fin 3]).min_intensity =
      some DbVal.negInf :=
  ⟨claim_C6.1 id 0 le_rfl,
   claim_C6.2 baseState [DbVal.negInf, DbVal.fin 3] rfl (by decide) (by decide)⟩

theorem pySlice_replicate (v : ℚ) (n : ℕ) (i j : ℤ) :
    pySlice (List.replicate n v) i j =
      List.replicate (pyIdx n j - pyIdx n i) v := by
  unfold pySlice
  rw [List.length_replicate, List.take_replicate, List.drop_replicate]
  congr 1
  have := pyIdx_le n j
  omega

/-- Claim C6, counterexample to the claim as stated: the all-zero
acquisition produces zero FFT magnitudes (bins `<= 0`); `get_data` turns
them into `-inf` dB values — not finite, no floor — and stores `-inf` into
the auto-scaled `min_intensity`. -/
theorem claim_C6_cx :
    (get_data lib1 id id raw0 baseState).1 = [DbVal.negInf, DbVal.negInf] ∧
    (get_data lib1 id id raw0 baseState).2.min_intensity = some DbVal.negInf := by
  have hzr : zoomRaw baseState = ((2 : ℤ), 1) := by
    norm_num [zoomRaw, baseState]
  have hzc : zoomClamped baseState (zoomRaw baseState).1 (zoomRaw baseState).2 =
      ((2 : ℤ), 1) := by
    rw [hzr]
    show zoomClamped baseState 2 1 = ((2 : ℤ), 1)
    norm_num [zoomClamped, SDR_SAMPLE_SIZE]
  have hidx4 : pyIdx 8192 ((2 : ℤ) + 2) = 4 := by
    norm_num [pyIdx, Int.toNat_ofNat]
    decide
  have hbins : pySlice raw0 0 ((2 : ℤ) + 2) = List.replicate 4 0 := by
    rw [raw0, pySlice_replicate, pyIdx_zero, hidx4]
  have hwin : windowOf lib1 baseState.filter baseState.kaiser_beta ((2 : ℤ) + 2) =
      .inl (List.replicate 4 1) := by
    rw [show baseState.filter = "boxcar" from rfl, windowOf_boxcar]
    rw [show lib1.boxcar SDR_SAMPLE_SIZE = List.replicate 8192 (1 : ℚ) from rfl]
    rw [pySlice_replicate, pyIdx_zero, hidx4]
  have hsamp : List.zipWith (· * ·) (List.replicate 4 (0 : ℚ))
      (List.replicate 4 (1 : ℚ)) = List.replicate 4 0 := by
    rw [List.zipWith_replicate]
    norm_num
  have htrim : pySlice (List.replicate 4 (0 : ℚ)) 1 (-1) = List.replicate 2 0 := by
    rw [pySlice_replicate]
    norm_num [pyIdx, Int.toNat_ofNat, Int.toNat_one]
    decide
  have hlog : np_log10_db id (0 : ℚ) = DbVal.negInf := by
    norm_num [np_log10_db]
  have hshift : np_fftshift (List.replicate 2 (0 : ℚ)) = List.replicate 2 0 := by
    unfold np_fftshift
    rw [List.rotate_replicate]
  have hmain : get_data lib1 id id raw0 baseState =
      ([DbVal.negInf, DbVal.negInf],
        autoscale_update { baseState with zoom_fac := 1 }
          [DbVal.negInf, DbVal.negInf]) := by
    simp only [get_data]
    rw [hzc]
    dsimp only
    rw [hbins, hwin]
    dsimp only
    rw [hsamp, id_eq, htrim, List.reverse_replicate, ite_self, hshift]
    rw [cropStep_length_le _ _ (by rw [List.length_replicate]; exact lt_irrefl 2),
      cropStep_state, if_neg (by rw [List.length_replicate]; exact lt_irrefl 2)]
    rw [List.map_replicate, hlog]
    rfl
  rw [hmain]
  exact ⟨rfl, autoscale_min_negInf _ _ rfl (by decide) (by decide)⟩

/-! ### The frame accumulator (views.py lines 826-855) -/

theorem shiftStep_length (rows : List (List DbVal)) (i : ℕ) :
    (shiftStep rows i).length = rows.length := by
  unfold shiftStep
  exact List.length_set rows (i - 1) _

theorem foldl_shiftStep_length (l : List ℕ) (rows : List (List DbVal)) :
    (l.foldl shiftStep rows).length = rows.length := by
  induction l generalizing rows with
  | nil => rfl
  | cons i is ih => rw [List.foldl_cons, ih, shiftStep_length]

theorem foldl_shiftStep_pred (Q : List DbVal → Prop) (l : List ℕ)
    (rows : List (List DbVal)) (hQ : ∀ r ∈ rows, Q r)
    (hlt : ∀ i ∈ l, i < rows.length) :
    ∀ r ∈ l.foldl shiftStep rows, Q r := by
  induction l generalizing rows with
  | nil => exact hQ
  | cons i is ih =>
    rw [List.foldl_cons]
    apply ih (shiftStep rows i)
    · intro r hr
      rcases List.mem_or_eq_of_mem_set hr with h | h
      · exact hQ r h
      · subst h
        have hi : i < rows.length := hlt i (List.mem_cons_self _ _)
        rw [List.getD_eq_getElem _ _ hi]
        exact hQ _ (List.getElem_mem hi)
    · intro j hj
      rw [shiftStep_length]
      exact hlt j (List.mem_cons_of_mem _ hj)

theorem shiftRows_length (rows : List (List DbVal)) (k : ℕ) :
    (shiftRows rows k).length = rows.length := by
  unfold shiftRows
  exact foldl_shiftStep_length _ rows

theorem shiftRows_pred (Q : List DbVal → Prop) (rows : List (List DbVal)) (k : ℕ)
    (hQ : ∀ r ∈ rows, Q r) (hk : rows.length = k + 1) :
    ∀ r ∈ shiftRows rows k, Q r := by
  apply foldl_shiftStep_pred Q _ rows hQ
  intro i hi
  rw [hk]
  have := List.mem_range'_1.mp hi
  omega

theorem np_copyto_length (dst src newLast : List DbVal)
    (h : np_copyto dst src = some newLast) : newLast.length = dst.length := by
  unfold np_copyto at h
  split at h
  · rename_i he
    injection h with h
    subst h
    exact he
  · split at h
    · injection h with h
      subst h
      rw [List.length_map]
    · cases h

theorem pushFrame_spec (st : AccumState) (k : ℕ) (p : Bool)
    (freqslast fresh : List DbVal)
    (hlen : st.freqgrabs.length = st.checkfirst)
    (hrows : ∀ r ∈ st.freqgrabs, r.length = st.freqsfirst.length)
    (st2 : AccumState) (v : List DbVal)
    (hp : pushFrame st k p freqslast fresh = some (st2, v)) :
    st2.freqgrabs.length = k + 1 ∧
    (∃ n, ∀ r ∈ st2.freqgrabs, r.length = n) ∧
    v = (if p then np_max_axis0 st2.freqgrabs else np_average_axis0 st2.freqgrabs) := by
  set st1 := if st.freqsfirst.length ≠ freqslast.length ∨ st.checkfirst ≠ k + 1
    then accumInit k fresh else st with hst1
  have h1len : st1.freqgrabs.length = k + 1 := by
    rw [hst1]
    split
    · simp [accumInit]
    · rename_i h
      push_neg at h
      rw [hlen, h.2]
  have h1rows : ∃ L, ∀ r ∈ st1.freqgrabs, r.length = L := by
    rw [hst1]
    split
    · refine ⟨fresh.length, ?_⟩
      intro r hr
      simp only [accumInit] at hr
      rw [List.eq_of_mem_replicate hr]
    · exact ⟨st.freqsfirst.length, hrows⟩
  obtain ⟨L, hL⟩ := h1rows
  have hr1len : (shiftRows st1.freqgrabs k).length = k + 1 := by
    rw [shiftRows_length, h1len]
  have hr1rows : ∀ r ∈ shiftRows st1.freqgrabs k, r.length = L :=
    shiftRows_pred _ _ _ hL h1len
  unfold pushFrame at hp
  rw [← hst1] at hp
  dsimp only at hp
  cases hcc : np_copyto ((shiftRows st1.freqgrabs k).getD k []) freqslast with
  | none =>
    rw [hcc] at hp
    cases hp
  | some newLast =>
    rw [hcc] at hp
    simp only [Option.some.injEq, Prod.mk.injEq] at hp
    obtain ⟨hst2, hv⟩ := hp
    have hdst : ((shiftRows st1.freqgrabs k).getD k []).length = L := by
      have hk : k < (shiftRows st1.freqgrabs k).length := by omega
      rw [List.getD_eq_getElem _ _ hk]
      exact hr1rows _ (List.getElem_mem hk)
    have hnewlen : newLast.length = L := by
      rw [np_copyto_length _ _ _ hcc, hdst]
    have hg2 : st2.freqgrabs = (shiftRows st1.freqgrabs k).set k newLast := by
      rw [← hst2]
    refine ⟨?_, ⟨L, ?_⟩, ?_⟩
    · rw [hg2, List.length_set, hr1len]
    · intro r hr
      rw [hg2] at hr
      rcases List.mem_or_eq_of_mem_set hr with h | h
      · exact hr1rows r h
      · rw [h, hnewlen]
    · rw [← hv, hg2]

theorem accumInit_invariant (k : ℕ) (first : List DbVal) :
    (accumInit k first).freqgrabs.length = (accumInit k first).checkfirst ∧
    ∀ r ∈ (accumInit k first).freqgrabs,
      r.length = (accumInit k first).freqsfirst.length := by
  constructor
  · simp [accumInit]
  · intro r hr
    simp only [accumInit] at hr
    rw [List.eq_of_mem_replicate hr]
    rfl

/-- Claim C8: on every push, a frame-length or averaging-depth mismatch
makes the accumulator behave exactly as if the ring had been rebuilt from
the freshly acquired frame (all slots tiled with it) before the shift and
reduction; and whenever a reduction is produced, every row of the ring it
reduces over has one single length. -/
theorem claim_C8 (st : AccumState) (k : ℕ) (p : Bool)
    (freqslast fresh : List DbVal)
    (hlen : st.freqgrabs.length = st.checkfirst)
    (hrows : ∀ r ∈ st.freqgrabs, r.length = st.freqsfirst.length) :
    ((st.freqsfirst.length ≠ freqslast.length ∨ st.checkfirst ≠ k + 1) →
       pushFrame st k p freqslast fresh =
         pushFrame (accumInit k fresh) k p freqslast fresh) ∧
    (∀ st2 v, pushFrame st k p freqslast fresh = some (st2, v) →
       ∃ n, ∀ r ∈ st2.freqgrabs, r.length = n) := by
  constructor
  · intro hmis
    unfold pushFrame
    rw [if_pos hmis, ite_self]
  · intro st2 v hp
    exact (pushFrame_spec st k p freqslast fresh hlen hrows st2 v hp).2.1

theorem claim_C8_witness :
    (pushFrame ⟨5, [DbVal.negInf], List.replicate 5 [DbVal.negInf]⟩ 1 true
        [DbVal.posInf] [DbVal.negInf] =
      pushFrame (accumInit 1 [DbVal.negInf]) 1 true
        [DbVal.posInf] [DbVal.negInf]) ∧
    (∃ n, ∀ r ∈ (⟨2, [DbVal.negInf],
        [[DbVal.negInf], [DbVal.posInf]]⟩ : AccumState).freqgrabs,
      r.length = n) :=
  ⟨(claim_C8 ⟨5, [DbVal.negInf], List.replicate 5 [DbVal.negInf]⟩ 1 true
      [DbVal.posInf] [DbVal.negInf] (by decide) (by decide)).1 (by decide),
   (claim_C8 ⟨5, [DbVal.negInf], List.replicate 5 [DbVal.negInf]⟩ 1 true
      [DbVal.posInf] [DbVal.negInf] (by decide) (by decide)).2
     ⟨2, [DbVal.negInf], [[DbVal.negInf], [DbVal.posInf]]⟩ [DbVal.posInf]
     (by decide)⟩

/-! ### The peak-hold reduction is the per-bin maximum -/

theorem dbLtB_le (a b : DbVal) (h : dbLtB a b = true) : dbLeB a b = true := by
  cases a <;> cases b <;> simp_all [dbLtB, dbLeB] <;> linarith

theorem dbMax_ne_nan (a b : DbVal) (ha : a ≠ .nan) (hb : b ≠ .nan) :
    dbMax a b ≠ .nan := by
  unfold dbMax
  rw [if_neg (by tauto)]
  split
  · exact hb
  · exact ha

theorem dbMax_cases (a b : DbVal) (ha : a ≠ .nan) (hb : b ≠ .nan) :
    dbMax a b = a ∨ dbMax a b = b := by
  unfold dbMax
  rw [if_neg (by tauto)]
  split
  · exact .inr rfl
  · exact .inl rfl

theorem dbLeB_dbMax_left (a b : DbVal) (ha : a ≠ .nan) (hb : b ≠ .nan) :
    dbLeB a (dbMax a b) = true := by
  unfold dbMax
  rw [if_neg (by tauto)]
  split
  · rename_i h
    exact dbLtB_le a b h
  · exact dbLeB_refl a ha

theorem dbLeB_dbMax_right (a b : DbVal) (ha : a ≠ .nan) (hb : b ≠ .nan) :
    dbLeB b (dbMax a b) = true := by
  unfold dbMax
  rw [if_neg (by tauto)]
  split
  · exact dbLeB_refl b hb
  · rename_i h
    exact not_dbLtB_le b a hb ha (by simpa using h)

theorem foldl_dbMax_spec (l : List DbVal) (a : DbVal) (ha : a ≠ .nan)
    (hl : ∀ x ∈ l, x ≠ .nan) :
    l.foldl dbMax a ≠ .nan ∧ dbLeB a (l.foldl dbMax a) = true ∧
    (∀ x ∈ l, dbLeB x (l.foldl dbMax a) = true) ∧
    (l.foldl dbMax a = a ∨ l.foldl dbMax a ∈ l) := by
  induction l generalizing a with
  | nil =>
    exact ⟨ha, dbLeB_refl a ha, by simp, .inl rfl⟩
  | cons x xs ih =>
    have hx : x ≠ .nan := hl x (List.mem_cons_self _ _)
    have hxs : ∀ y ∈ xs, y ≠ .nan := fun y hy => hl y (List.mem_cons_of_mem _ hy)
    have hmn : dbMax a x ≠ .nan := dbMax_ne_nan a x ha hx
    obtain ⟨h1, h2, h3, h4⟩ := ih (dbMax a x) hmn hxs
    rw [List.foldl_cons]
    refine ⟨h1, dbLeB_trans _ _ _ (dbLeB_dbMax_left a x ha hx) h2, ?_, ?_⟩
    · intro y hy
      rcases List.mem_cons.mp hy with h | h
      · subst h
        exact dbLeB_trans _ _ _ (dbLeB_dbMax_right a y ha hx) h2
      · exact h3 y h
    · rcases h4 with h | h
      · rcases dbMax_cases a x ha hx with h5 | h5
        · exact .inl (h.trans h5)
        · refine .inr ?_
          rw [h.trans h5]
          exact List.mem_cons_self x xs
      · exact .inr (List.mem_cons_of_mem _ h)

theorem getD_zipWith_dbMax (a b : List DbVal) (i : ℕ)
    (h1 : i < a.length) (h2 : i < b.length) :
    (List.zipWith dbMax a b).getD i .nan = dbMax (a.getD i .nan) (b.getD i .nan) := by
  have hz : i < (List.zipWith dbMax a b).length := by
    rw [List.length_zipWith]
    omega
  rw [List.getD_eq_getElem _ _ hz, List.getD_eq_getElem _ _ h1,
    List.getD_eq_getElem _ _ h2]
  exact List.getElem_zipWith

theorem foldl_zipWith_dbMax_length (rs : List (List DbVal)) (r : List DbVal)
    (n : ℕ) (hr : r.length = n) (hrs : ∀ x ∈ rs, x.length = n) :
    (rs.foldl (fun a row => List.zipWith dbMax a row) r).length = n := by
  induction rs generalizing r with
  | nil => exact hr
  | cons x xs ih =>
    rw [List.foldl_cons]
    apply ih
    · rw [List.length_zipWith, hr, hrs x (List.mem_cons_self _ _)]
      omega
    · exact fun y hy => hrs y (List.mem_cons_of_mem _ hy)

theorem foldl_zipWith_dbMax_getD (rs : List (List DbVal)) (r : List DbVal)
    (n i : ℕ) (hr : r.length = n) (hrs : ∀ x ∈ rs, x.length = n) (hi : i < n) :
    (rs.foldl (fun a row => List.zipWith dbMax a row) r).getD i .nan =
      (rs.map (fun row => row.getD i .nan)).foldl dbMax (r.getD i .nan) := by
  induction rs generalizing r with
  | nil => rfl
  | cons x xs ih =>
    have hx : x.length = n := hrs x (List.mem_cons_self _ _)
    have hzip : (List.zipWith dbMax r x).length = n := by
      rw [List.length_zipWith, hr, hx]
      omega
    rw [List.foldl_cons, List.map_cons, List.foldl_cons]
    rw [ih (List.zipWith dbMax r x) hzip
      (fun y hy => hrs y (List.mem_cons_of_mem _ hy))]
    rw [getD_zipWith_dbMax r x i (by omega) (by omega)]

/-- Claim C7: in peak-hold mode, for every bin index `i`, the reduced value
produced by the frame accumulator equals the maximum over all
`fft_ave + 1` frames currently held in the history ring at position `i`
(upper bound and attainment, under the IEEE order, for `nan`-free rings). -/
theorem claim_C7 (st : AccumState) (k : ℕ) (freqslast fresh : List DbVal)
    (hlen : st.freqgrabs.length = st.checkfirst)
    (hrows : ∀ r ∈ st.freqgrabs, r.length = st.freqsfirst.length)
    (st2 : AccumState) (v : List DbVal)
    (hp : pushFrame st k true freqslast fresh = some (st2, v))
    (hnan : ∀ r ∈ st2.freqgrabs, ∀ x ∈ r, x ≠ .nan)
    (i : ℕ) (hi : i < v.length) :
    st2.freqgrabs.length = k + 1 ∧
    (∀ r ∈ st2.freqgrabs, dbLeB (r.getD i .nan) (v.getD i .nan) = true) ∧
    (∃ r ∈ st2.freqgrabs, v.getD i .nan = r.getD i .nan) := by
  obtain ⟨hglen, ⟨n, hn⟩, hv⟩ :=
    pushFrame_spec st k true freqslast fresh hlen hrows st2 v hp
  rw [if_pos rfl] at hv
  obtain ⟨r, rs, hg⟩ : ∃ r rs, st2.freqgrabs = r :: rs := by
    cases hgg : st2.freqgrabs with
    | nil =>
      rw [hgg] at hglen
      simp at hglen
    | cons a b => exact ⟨a, b, rfl⟩
  rw [hg] at hglen hn hnan hv
  rw [hg]
  have hr : r.length = n := hn r (List.mem_cons_self _ _)
  have hrs : ∀ x ∈ rs, x.length = n := fun x hx =>
    hn x (List.mem_cons_of_mem _ hx)
  have hvlen : v.length = n := by
    rw [hv]
    unfold np_max_axis0
    exact foldl_zipWith_dbMax_length rs r n hr hrs
  have hin : i < n := hvlen ▸ hi
  have hvi : v.getD i .nan =
      (rs.map (fun row => row.getD i .nan)).foldl dbMax (r.getD i .nan) := by
    rw [hv]
    unfold np_max_axis0
    exact foldl_zipWith_dbMax_getD rs r n i hr hrs hin
  have hcol_ne : ∀ x ∈ r :: rs, x.getD i DbVal.nan ≠ DbVal.nan := by
    intro x hx
    have hxlen : x.length = n := hn x hx
    have hilt : i < x.length := by omega
    rw [List.getD_eq_getElem _ _ hilt]
    exact hnan x hx _ (List.getElem_mem hilt)
  have hrne : r.getD i DbVal.nan ≠ DbVal.nan := hcol_ne r (List.mem_cons_self _ _)
  have hmapne : ∀ y ∈ rs.map (fun row => row.getD i DbVal.nan), y ≠ DbVal.nan := by
    intro y hy
    obtain ⟨row, hrow, hrow2⟩ := List.mem_map.mp hy
    rw [← hrow2]
    exact hcol_ne row (List.mem_cons_of_mem _ hrow)
  obtain ⟨hfne, hfa, hfall, hfat⟩ :=
    foldl_dbMax_spec (rs.map (fun row => row.getD i DbVal.nan)) (r.getD i DbVal.nan)
      hrne hmapne
  refine ⟨hglen, ?_, ?_⟩
  · intro x hx
    rw [hvi]
    rcases List.mem_cons.mp hx with h | h
    · subst h
      exact hfa
    · exact hfall _ (List.mem_map_of_mem _ h)
  · rw [hvi]
    rcases hfat with h | h
    · exact ⟨r, List.mem_cons_self _ _, h⟩
    · obtain ⟨row, hrow, hrow2⟩ := List.mem_map.mp h
      exact ⟨row, List.mem_cons_of_mem _ hrow, hrow2.symm⟩

theorem claim_C7_witness :
    (⟨2, [DbVal.negInf], [[DbVal.negInf], [DbVal.posInf]]⟩ :
        AccumState).freqgrabs.length = 1 + 1 ∧
    (∀ r ∈ (⟨2, [DbVal.negInf], [[DbVal.negInf], [DbVal.posInf]]⟩ :
        AccumState).freqgrabs,
      dbLeB (r.getD 0 .nan) (([DbVal.posInf] : List DbVal).getD 0 .nan) = true) ∧
    (∃ r ∈ (⟨2, [DbVal.negInf], [[DbVal.negInf], [DbVal.posInf]]⟩ :
        AccumState).freqgrabs,
      ([DbVal.posInf] : List DbVal).getD 0 .nan = r.getD 0 .nan) :=
  claim_C7 (accumInit 1 [DbVal.negInf]) 1 [DbVal.posInf] [DbVal.negInf]
    (by decide) (by decide)
    ⟨2, [DbVal.negInf], [[DbVal.negInf], [DbVal.posInf]]⟩ [DbVal.posInf]
    (by decide) (by decide) 0 (by decide)

end FreqShow
